import Mathlib

/-!
Verification of the move-spec-testing repository (move-mutator and
move-spec-test tools) against its natural-language specification.

The development shallowly embeds:
* `report.rs` — the `Report` / `MutationReport` / `Mutation` / `Range`
  data model, its JSON serialization (serde derive field order) and the
  human-readable text rendering of `save_to_text_file`;
* `lib.rs` of move-mutator — `setup_output_dir` and the
  `run_move_mutator` per-file mutant-materialization loop, with the
  filesystem modelled as an explicit trace of operations;
* `lib.rs` of move-spec-test — the baseline-then-mutant-loop
  orchestration of `run_spec_test`, with the prover modelled as a
  function returning `Except String Unit`.

Code of the repository that is not present in the sources at hand
(`Mutant::apply` from mutant.rs, `Report::load_from_json_file`) is
modelled from the specification and marked as such in its doc comment.
-/

namespace MoveSpecTesting

/-- Embeds `Range` from report.rs: a start/end pair of `usize` positions
(`end` is a Lean keyword, rendered here as `end_`). -/
structure Range where
  start : Nat
  end_ : Nat
  deriving Repr, DecidableEq

/-- Embeds `Range::new` from report.rs.  The Rust constructor runs
`assert!(start <= end)` and panics otherwise; the panic is modelled as
`none`. -/
def Range.new (start end_ : Nat) : Option Range :=
  if start ≤ end_ then some ⟨start, end_⟩ else none

/-- Embeds `Mutation` from report.rs: one modification applied to a file. -/
structure Mutation where
  changed_place : Range
  operator_name : String
  old_value : String
  new_value : String
  deriving Repr, DecidableEq

/-- Embeds `MutationReport` from report.rs: one entry of the report. -/
structure MutationReport where
  file : String
  original_file : String
  mutations : List Mutation
  diff : String
  deriving Repr, DecidableEq

/-- Embeds `MutationReport::new` from report.rs: empty mutation list and
empty diff. -/
def MutationReport.new (file original_file : String) : MutationReport :=
  { file := file, original_file := original_file, mutations := [], diff := "" }

/-- Embeds `MutationReport::add_modification` from report.rs: `Vec::push`. -/
def MutationReport.add_modification (e : MutationReport) (m : Mutation) :
    MutationReport :=
  { e with mutations := e.mutations ++ [m] }

/-- Embeds `MutationReport::generate_diff` from report.rs; the diff text
itself comes from the external `diffy` crate, abstracted as `diffFn`. -/
def MutationReport.generate_diff (e : MutationReport)
    (diffFn : List Char → List Char → String)
    (original_source mutated_source : List Char) : MutationReport :=
  { e with diff := diffFn original_source mutated_source }

/-- Embeds `Report` from report.rs: a vector of `MutationReport`. -/
structure Report where
  mutants : List MutationReport
  deriving Repr, DecidableEq

/-- Embeds `Report::new` from report.rs. -/
def Report.new : Report := { mutants := [] }

/-- Embeds `Report::add_entry` from report.rs: `Vec::push`. -/
def Report.add_entry (r : Report) (entry : MutationReport) : Report :=
  { r with mutants := r.mutants ++ [entry] }

/-- Embeds `Report::get_mutants` (accessor used by run_spec_test). -/
def Report.get_mutants (r : Report) : List MutationReport := r.mutants

/-! ### Structured (JSON) serialization

`report.rs` derives `Serialize` on all four types; serde emits object
fields in declaration order.  The JSON value tree is embedded as an
inductive; the textual rendering done by `serde_json` is an external
concern not needed by the claims. -/

/-- A JSON value, as produced by the serde derive for the report types. -/
inductive Json where
  | str (s : String)
  | num (n : Nat)
  | arr (elems : List Json)
  | obj (fields : List (String × Json))

/-- First-match lookup in a field list. -/
def lookupField : List (String × Json) → String → Option Json
  | [], _ => none
  | (k, v) :: rest, key => if k = key then some v else lookupField rest key

/-- Field lookup in a JSON object (first match, as serde does). -/
def Json.getField : Json → String → Option Json
  | .obj fields, key => lookupField fields key
  | _, _ => none

/-- Extracts a string value. -/
def Json.asStr : Json → Option String
  | .str s => some s
  | _ => none

/-- Extracts a numeric value. -/
def Json.asNat : Json → Option Nat
  | .num n => some n
  | _ => none

/-- Extracts an array value. -/
def Json.asArr : Json → Option (List Json)
  | .arr xs => some xs
  | _ => none

/-- Serde `Serialize` derive for `Range`: fields in declaration order. -/
def Range.toJson (r : Range) : Json :=
  .obj [("start", .num r.start), ("end", .num r.end_)]

/-- Serde `Serialize` derive for `Mutation`: fields in declaration order. -/
def Mutation.toJson (m : Mutation) : Json :=
  .obj [("changed_place", m.changed_place.toJson),
        ("operator_name", .str m.operator_name),
        ("old_value", .str m.old_value),
        ("new_value", .str m.new_value)]

/-- Serde `Serialize` derive for `MutationReport`: fields in declaration
order. -/
def MutationReport.toJson (e : MutationReport) : Json :=
  .obj [("file", .str e.file),
        ("original_file", .str e.original_file),
        ("mutations", .arr (e.mutations.map Mutation.toJson)),
        ("diff", .str e.diff)]

/-- Serde `Serialize` derive for `Report` (the value written by
`Report::save_to_json_file`). -/
def Report.toJson (r : Report) : Json :=
  .obj [("mutants", .arr (r.mutants.map MutationReport.toJson))]

/-- Option-valued map, used by the modelled deserializer. -/
def mapOption (f : α → Option β) : List α → Option (List β)
  | [] => some []
  | x :: xs => do
      let y ← f x
      let ys ← mapOption f xs
      some (y :: ys)

/-- Modelled from the spec: the `Deserialize` side of `Range`, part of
`Report::load_from_json_file` (called by run_spec_test but absent from
the sources at hand); the structured form must round-trip losslessly. -/
def Range.fromJson (j : Json) : Option Range := do
  let s ← (← j.getField "start").asNat
  let e ← (← j.getField "end").asNat
  some { start := s, end_ := e }

/-- Modelled from the spec: the `Deserialize` side of `Mutation`. -/
def Mutation.fromJson (j : Json) : Option Mutation := do
  let cp ← Range.fromJson (← j.getField "changed_place")
  let op ← (← j.getField "operator_name").asStr
  let ov ← (← j.getField "old_value").asStr
  let nv ← (← j.getField "new_value").asStr
  some { changed_place := cp, operator_name := op, old_value := ov,
         new_value := nv }

/-- Modelled from the spec: the `Deserialize` side of `MutationReport`. -/
def MutationReport.fromJson (j : Json) : Option MutationReport := do
  let f ← (← j.getField "file").asStr
  let of_ ← (← j.getField "original_file").asStr
  let ms ← mapOption Mutation.fromJson (← (← j.getField "mutations").asArr)
  let d ← (← j.getField "diff").asStr
  some { file := f, original_file := of_, mutations := ms, diff := d }

/-- Modelled from the spec: `Report::load_from_json_file`, reading back
the structured form written by `save_to_json_file` (file I/O elided,
the JSON value is the input). -/
def Report.fromJson (j : Json) : Option Report := do
  let ms ← mapOption MutationReport.fromJson (← (← j.getField "mutants").asArr)
  some { mutants := ms }

/-! ### Human-readable text rendering

`Report::save_to_text_file` writes a fixed sequence of `writeln!` lines
per entry; the file contents are modelled as the string accumulated by
those writes in order. -/

/-- The divider line written after every entry (40 dashes). -/
def dividerLine : String := "----------------------------------------"

/-- Embeds the inner mutation loop of `Report::save_to_text_file`:
the four `writeln!` lines per `Mutation`, appended to the file
accumulator. -/
def Mutation.textLines (m : Mutation) : String :=
  "  Operator: " ++ m.operator_name ++ "\n" ++
  "  Old value: " ++ m.old_value ++ "\n" ++
  "  New value: " ++ m.new_value ++ "\n" ++
  "  Changed place: " ++ toString m.changed_place.start ++ "-" ++
    toString m.changed_place.end_ ++ "\n"

/-- Embeds the body of the `for entry in &self.mutants` loop of
`Report::save_to_text_file`: the `writeln!` calls for one entry,
appended in program order to the file accumulator. -/
def saveEntryLines (acc : String) (entry : MutationReport) : String :=
  (entry.mutations.foldl (fun acc2 m => acc2 ++ m.textLines)
      (acc ++ "File: " ++ entry.file ++ "\n"
           ++ "Original file: " ++ entry.original_file ++ "\n"
           ++ "Mutations:" ++ "\n"))
    ++ "Diff:" ++ "\n"
    ++ entry.diff ++ "\n"
    ++ dividerLine ++ "\n"

/-- Embeds `Report::save_to_text_file` from report.rs: the sequence of
`writeln!` calls, modelled as a left fold accumulating the file
contents write by write. -/
def Report.save_to_text_file (r : Report) : String :=
  r.mutants.foldl saveEntryLines ""

/-- Concatenation of a list of strings, used to state rendering
properties. -/
def strJoin : List String → String
  | [] => ""
  | s :: rest => s ++ strJoin rest

/-- The complete text block one entry contributes to the text report:
File, Original file, Mutations (Operator / Old value / New value /
Changed place each), Diff, then the divider.  Used to state the
fixed-field-order property of `Report.save_to_text_file`. -/
def MutationReport.textBlock (entry : MutationReport) : String :=
  "File: " ++ entry.file ++ "\n" ++
  "Original file: " ++ entry.original_file ++ "\n" ++
  "Mutations:" ++ "\n" ++
  strJoin (entry.mutations.map Mutation.textLines) ++
  "Diff:" ++ "\n" ++
  entry.diff ++ "\n" ++
  dividerLine ++ "\n"

/-! ### Source files, mutants and materialization -/

/-- A compiled source file as handed to `run_move_mutator`: the registry
maps a content hash to (filename, source text).  Source text is a byte
sequence, modelled as a list of characters. -/
structure SourceFile where
  contentHash : Nat
  filename : String
  text : List Char
  deriving Repr, DecidableEq

/-- Modelled from the spec: the `Mutant` descriptor produced by the
generator (mutant.rs is absent from the sources at hand) —
`owningFileHash, range:(start,end), operatorName, oldValueText,
newValueText`. -/
structure Mutant where
  owningFileHash : Nat
  range : Range
  operatorName : String
  oldValueText : List Char
  newValueText : List Char
  deriving Repr, DecidableEq

/-- Modelled from the spec: materialization of a mutant —
`output = text[0:range.start] + newValueText + text[range.end:]`. -/
def materialize (text : List Char) (m : Mutant) : List Char :=
  text.take m.range.start ++ m.newValueText ++ text.drop m.range.end_

/-- A materialized mutant as consumed by the write loop of
`run_move_mutator`: the report `Mutation` plus the mutated source. -/
structure MaterializedMutant where
  mutation : Mutation
  mutated_source : List Char
  deriving Repr, DecidableEq

/-- Modelled from the spec: `Mutant::apply` (mutant.rs is absent from
the sources at hand).  The caller in `run_move_mutator` iterates the
returned list; by the spec's data model a `Mutant` descriptor carries a
single `newValueText`, so `apply` yields exactly one materialization
(alternative replacements are independent `Mutant`s). -/
def Mutant.apply (m : Mutant) (source : List Char) : List MaterializedMutant :=
  [{ mutation :=
      { changed_place := m.range,
        operator_name := m.operatorName,
        old_value := String.mk m.oldValueText,
        new_value := String.mk m.newValueText },
     mutated_source := materialize source m }]

/-- All materializations a list of mutants yields on one source, in
order: the concatenation of each mutant's `apply` results. -/
def materializedOf (source : List Char) (ms : List Mutant) :
    List MaterializedMutant :=
  (ms.map (fun m => m.apply source)).flatten

/-! ### Mutator configuration and the filesystem trace

`run_move_mutator`'s effects on disk are modelled as an explicit list
of operations in the order the code performs them.  External
collaborators are parameters: `dirExists` (the `Path::exists` probe),
`fileStem` (`Path::file_stem`), `diffFn` (the diffy crate). -/

/-- The fields of `Configuration::project` that `run_move_mutator` and
`setup_output_dir` read (configuration.rs types, paths as strings). -/
structure ProjectOptions where
  output_dir : Option String
  no_overwrite : Option Bool
  exclude_files : Option (List String)
  include_only_files : Option (List String)
  deriving Repr, DecidableEq

/-- Embeds `DEFAULT_OUTPUT_DIR` from lib.rs. -/
def DEFAULT_OUTPUT_DIR : String := "mutants_output"

/-- A filesystem operation performed by `run_move_mutator`, in program
order.  `writeJson` models `Report::save_to_json_file` (the serde value
written instead of its rendered text). -/
inductive FsOp where
  | removeDirAll (path : String)
  | createDir (path : String)
  | writeFile (path : String) (content : String)
  | writeJson (path : String) (content : Json)

/-- Whether an operation is a plain file write (`std::fs::write` /
report save), as opposed to directory removal or creation. -/
def FsOp.isWrite : FsOp → Bool
  | .writeFile _ _ => true
  | .writeJson _ _ => true
  | _ => false

/-- Embeds `setup_output_dir` from lib.rs: resolve the output directory
(defaulting to `mutants_output`), abort if it exists under
`no_overwrite`, otherwise remove and recreate it.  Returns the resolved
directory and the operations performed. -/
def setup_output_dir (conf : ProjectOptions) (dirExists : String → Bool) :
    Except String (String × List FsOp) :=
  let output_dir := conf.output_dir.getD DEFAULT_OUTPUT_DIR
  if dirExists output_dir && conf.no_overwrite.getD false then
    .error "Output directory already exists. Use --no-overwrite=false to overwrite."
  else
    .ok (output_dir, [.removeDirAll output_dir, .createDir output_dir])

/-- The output path of the `i`-th mutant of a file, as formatted by
`run_move_mutator`: `output_dir/file_name_i.move`. -/
def mutantPath (dir stem : String) (i : Nat) : String :=
  dir ++ "/" ++ stem ++ "_" ++ toString i ++ ".move"

/-- Embeds the inner `for mutated in mutated_sources` loop of
`run_move_mutator`: write the mutated source to `stem_i.move`, build the
report entry (`MutationReport::new`, diff, `add_modification`),
increment `i`.  Returns the final `i`, the writes, and the entries. -/
def writeMaterialized (dir stem : String) (source : List Char)
    (origPath : String) (diffFn : List Char → List Char → String) :
    Nat → List MaterializedMutant → Nat × List FsOp × List MutationReport
  | i, [] => (i, [], [])
  | i, mat :: rest =>
      let path := mutantPath dir stem i
      let entry :=
        ((MutationReport.new path origPath).generate_diff diffFn source
          mat.mutated_source).add_modification mat.mutation
      let rec_ := writeMaterialized dir stem source origPath diffFn (i + 1) rest
      (rec_.1, .writeFile path (String.mk mat.mutated_source) :: rec_.2.1,
       entry :: rec_.2.2)

/-- Embeds the `for mutant in mutants.iter().filter(...)` loop of
`run_move_mutator` for one file: apply each mutant owned by the file and
write every materialization, threading the per-file index `i`. -/
def writeMutants (dir stem : String) (source : List Char)
    (origPath : String) (diffFn : List Char → List Char → String) :
    Nat → List Mutant → List FsOp × List MutationReport
  | _, [] => ([], [])
  | i, m :: rest =>
      let mat := writeMaterialized dir stem source origPath diffFn i (m.apply source)
      let rest_ := writeMutants dir stem source origPath diffFn mat.1 rest
      (mat.2.1 ++ rest_.1, mat.2.2 ++ rest_.2)

/-- Embeds the per-file body of `run_move_mutator`'s `for (hash,
(filename, source)) in files` loop: skip the file when it is in
`exclude_files`, or when `include_only_files` is set and does not list
it; otherwise materialize the mutants whose hash matches the file. -/
def processFile (conf : ProjectOptions) (mutants : List Mutant)
    (dir : String) (fileStem : String → String)
    (diffFn : List Char → List Char → String)
    (hash : Nat) (filename : String) (source : List Char) :
    List FsOp × List MutationReport :=
  if (match conf.exclude_files with
      | some excluded => excluded.contains filename
      | none => false) then
    ([], [])
  else if (match conf.include_only_files with
      | some included => !(included.contains filename)
      | none => false) then
    ([], [])
  else
    writeMutants dir (fileStem filename) source filename diffFn 0
      (mutants.filter (fun m => m.owningFileHash == hash))

/-- The `for (hash, (filename, source)) in files` loop of
`run_move_mutator` over all files. -/
def processFiles (conf : ProjectOptions) (mutants : List Mutant)
    (dir : String) (fileStem : String → String)
    (diffFn : List Char → List Char → String) :
    List (Nat × String × List Char) → List FsOp × List MutationReport
  | [] => ([], [])
  | (hash, filename, source) :: rest =>
      let this_ :=
        processFile conf mutants dir fileStem diffFn hash filename source
      let rest_ := processFiles conf mutants dir fileStem diffFn rest
      (this_.1 ++ rest_.1, this_.2 ++ rest_.2)

/-- Embeds `run_move_mutator` from lib.rs, downstream of AST generation
(`generate_ast` and `mutate::mutate` are upstream collaborators whose
outputs `files` and `mutants` are the inputs here): set up the output
directory, process every file appending entries to the report via
`Report::add_entry`, then save report.json and report.txt.  The result
is the filesystem trace in program order plus the final report. -/
def run_move_mutator (conf : ProjectOptions)
    (files : List (Nat × String × List Char)) (mutants : List Mutant)
    (dirExists : String → Bool) (fileStem : String → String)
    (diffFn : List Char → List Char → String) :
    Except String (List FsOp × Report) :=
  match setup_output_dir conf dirExists with
  | .error e => .error e
  | .ok dirOps =>
      let processed := processFiles conf mutants dirOps.1 fileStem diffFn files
      let report := processed.2.foldl Report.add_entry Report.new
      .ok (dirOps.2 ++ processed.1 ++
            [.writeJson (dirOps.1 ++ "/report.json") report.toJson,
             .writeFile (dirOps.1 ++ "/report.txt") report.save_to_text_file],
           report)

/-! ### The mutation-testing orchestrator (move-spec-test lib.rs)

The prover is an external collaborator with contract
`verify(...) → Ok(()) | Err(message)`: the baseline run is an
`Except String Unit` value, the per-mutant run a function from the
report entry to `Except String Unit`.  The model starts after the
mutator has run and the report has been loaded, which is where the
baseline check and the mutant loop of `run_spec_test` live. -/

/-- Boolean error test for `Except`. -/
def exceptIsError : Except ε α → Bool
  | .error _ => true
  | .ok _ => false

/-- Embeds the `for elem in report.get_mutants()` loop of
`run_spec_test`: each iteration increments `total_mutants`, invokes
`prover::prove_mutant` once, and increments `killed_mutants` when that
invocation returns an error.  The accumulator is
(prover calls made, total_mutants, killed_mutants). -/
def mutantStep (prove_mutant : MutationReport → Except String Unit)
    (acc : Nat × Nat × Nat) (elem : MutationReport) : Nat × Nat × Nat :=
  let total := acc.2.1 + 1
  let calls := acc.1 + 1
  match prove_mutant elem with
  | .error _ => (calls, total, acc.2.2 + 1)
  | .ok _ => (calls, total, acc.2.2)

/-- The fold of `mutantStep` over the loaded report's mutants, from the
zero counters. -/
def mutantLoop (prove_mutant : MutationReport → Except String Unit)
    (entries : List MutationReport) : Nat × Nat × Nat :=
  entries.foldl (mutantStep prove_mutant) (0, 0, 0)

/-- The observable outcome of `run_spec_test`: the returned result —
`Err(msg)` on baseline failure, `Ok(total, killed)` with the two printed
counters otherwise — together with the number of per-mutant prover
invocations made. -/
structure SpecTestRun where
  result : Except String (Nat × Nat)
  mutantProverCalls : Nat

/-- Embeds `run_spec_test` from move-spec-test lib.rs, downstream of the
mutator run and report load: if the baseline `prove` fails, return the
fatal error wrapping the prover's message and make no per-mutant calls;
otherwise run the mutant loop and report (total, killed). -/
def run_spec_test (baseline : Except String Unit)
    (prove_mutant : MutationReport → Except String Unit)
    (report : Report) : SpecTestRun :=
  match baseline with
  | .error e =>
      { result := .error
          ("Original code verification failed! Prover failed with error: " ++ e),
        mutantProverCalls := 0 }
  | .ok _ =>
      let counters := mutantLoop prove_mutant report.get_mutants
      { result := .ok (counters.2.1, counters.2.2),
        mutantProverCalls := counters.1 }

/-! ### Concrete sample inputs

Small concrete instances of the mutator run, used by witnesses to
evaluate the model on actual data: two source files, one mutant each,
file B both include-listed and exclude-listed (exclusion wins). -/

/-- A configuration with both filter lists set: include A and B,
exclude B. -/
def sampleConf : ProjectOptions :=
  { output_dir := some "out", no_overwrite := some false,
    exclude_files := some ["B.move"],
    include_only_files := some ["A.move", "B.move"] }

/-- Two compiled files, hashes 1 and 2, each with source `x`. -/
def sampleFiles : List (Nat × String × List Char) :=
  [(1, "A.move", "x".data), (2, "B.move", "x".data)]

/-- One mutant per file, replacing the whole source `x` by `y`. -/
def sampleMutants : List Mutant :=
  [{ owningFileHash := 1, range := { start := 0, end_ := 1 },
     operatorName := "replace", oldValueText := "x".data,
     newValueText := "y".data },
   { owningFileHash := 2, range := { start := 0, end_ := 1 },
     operatorName := "replace", oldValueText := "x".data,
     newValueText := "y".data }]

/-- The single report entry the sample run produces (file B is
excluded, so only A's mutant is materialized). -/
def sampleEntry : MutationReport :=
  { file := "out/A.move_0.move", original_file := "A.move",
    mutations := [{ changed_place := { start := 0, end_ := 1 },
                    operator_name := "replace", old_value := "x",
                    new_value := "y" }],
    diff := "" }

/-- The report of the sample run. -/
def sampleReport : Report := { mutants := [sampleEntry] }

/-- The filesystem trace of the sample run. -/
def sampleOps : List FsOp :=
  [.removeDirAll "out", .createDir "out",
   .writeFile "out/A.move_0.move" "y",
   .writeJson "out/report.json" sampleReport.toJson,
   .writeFile "out/report.txt" sampleReport.save_to_text_file]

/-! ## Helper lemmas -/

theorem strJoin_append (l1 l2 : List String) :
    strJoin (l1 ++ l2) = strJoin l1 ++ strJoin l2 := by
  induction l1 with
  | nil => simp [strJoin, String.empty_append]
  | cons s rest ih => simp [strJoin, ih, String.append_assoc]

theorem foldl_append_strJoin (g : α → String) (l : List α) :
    ∀ acc : String, l.foldl (fun a x => a ++ g x) acc = acc ++ strJoin (l.map g) := by
  induction l with
  | nil => intro acc; simp [strJoin, String.append_empty]
  | cons x xs ih =>
      intro acc
      simp only [List.foldl_cons, List.map_cons, strJoin, ih, String.append_assoc]

theorem saveEntryLines_eq (acc : String) (entry : MutationReport) :
    saveEntryLines acc entry = acc ++ entry.textBlock := by
  unfold saveEntryLines MutationReport.textBlock
  rw [foldl_append_strJoin Mutation.textLines]
  simp [String.append_assoc]

theorem foldl_saveEntryLines (l : List MutationReport) :
    ∀ acc : String,
      l.foldl saveEntryLines acc = acc ++ strJoin (l.map MutationReport.textBlock) := by
  induction l with
  | nil => intro acc; simp [strJoin, String.append_empty]
  | cons e es ih =>
      intro acc
      rw [List.foldl_cons, saveEntryLines_eq, ih, List.map_cons]
      simp [strJoin, String.append_assoc]

theorem report_foldl_add_entry (es : List MutationReport) :
    ∀ r : Report, (es.foldl Report.add_entry r).mutants = r.mutants ++ es := by
  induction es with
  | nil => intro r; simp
  | cons e rest ih => intro r; simp [Report.add_entry, ih]

/-! ## Claim C7 -/

/-- C7: the human-readable text report renders each entry with fields in
the fixed order File, Original file, Mutations (each mutation listing
Operator, Old value, New value, Changed place), then Diff, and
terminates every entry — hence separates consecutive entries — with the
fixed divider line. -/
theorem save_to_text_file_fixed_format (r : Report) :
    r.save_to_text_file =
      strJoin (r.mutants.map (fun entry =>
        "File: " ++ entry.file ++ "\n" ++
        "Original file: " ++ entry.original_file ++ "\n" ++
        "Mutations:" ++ "\n" ++
        strJoin (entry.mutations.map (fun m =>
          "  Operator: " ++ m.operator_name ++ "\n" ++
          "  Old value: " ++ m.old_value ++ "\n" ++
          "  New value: " ++ m.new_value ++ "\n" ++
          "  Changed place: " ++ toString m.changed_place.start ++ "-" ++
            toString m.changed_place.end_ ++ "\n")) ++
        "Diff:" ++ "\n" ++
        entry.diff ++ "\n" ++
        dividerLine ++ "\n")) := by
  unfold Report.save_to_text_file
  rw [foldl_saveEntryLines, String.empty_append]
  rfl

/-! ## Claim C9 -/

/-- C9: `add_entry` appends at the end of the report; a run of
`add_entry` calls yields exactly the pushed entries in insertion
order, and both serialized forms (the JSON value and the text
rendering) emit the entries in exactly that order, with no
deduplication (the maps preserve length and multiplicity). -/
theorem report_append_only (r : Report) (e : MutationReport)
    (es : List MutationReport) :
    (r.add_entry e).mutants = r.mutants ++ [e]
    ∧ (es.foldl Report.add_entry Report.new).mutants = es
    ∧ Report.toJson (es.foldl Report.add_entry Report.new)
        = Json.obj [("mutants", Json.arr (es.map MutationReport.toJson))]
    ∧ Report.save_to_text_file (es.foldl Report.add_entry Report.new)
        = strJoin (es.map MutationReport.textBlock) := by
  have hfold : (es.foldl Report.add_entry Report.new).mutants = es := by
    rw [report_foldl_add_entry]
    simp [Report.new]
  refine ⟨rfl, hfold, ?_, ?_⟩
  · rw [Report.toJson, hfold]
  · rw [Report.save_to_text_file, hfold, foldl_saveEntryLines,
      String.empty_append]

/-! ## Claim C10 -/

/-- C10: `Range::new` succeeds (does not panic) exactly when
`start <= end`; every `Range` obtained through the constructor
satisfies `start <= end`, and no bound relative to any source text
length is enforced — construction succeeds for arbitrarily large end
positions whenever `start <= end`. -/
theorem range_new_asserts_start_le_end :
    (∀ s e : Nat, s ≤ e → Range.new s e = some { start := s, end_ := e })
    ∧ (∀ s e : Nat, ¬ s ≤ e → Range.new s e = none)
    ∧ (∀ (s e : Nat) (r : Range), Range.new s e = some r → r.start ≤ r.end_) := by
  refine ⟨?_, ?_, ?_⟩
  · intro s e h; simp [Range.new, h]
  · intro s e h; simp [Range.new, h]
  · intro s e r hr
    unfold Range.new at hr
    split at hr
    · cases hr; assumption
    · cases hr

/-- Witness for C10: the constructor at concrete inputs, one of them an
end position far beyond any plausible text length. -/
theorem range_new_asserts_start_le_end_witness :
    Range.new 3 1000000 = some { start := 3, end_ := 1000000 }
    ∧ Range.new 10 3 = none :=
  ⟨range_new_asserts_start_le_end.1 3 1000000 (by decide),
   range_new_asserts_start_le_end.2.1 10 3 (by decide)⟩

/-! ## The orchestrator loop counters -/

theorem mutantStep_foldl (pm : MutationReport → Except String Unit)
    (es : List MutationReport) :
    ∀ c t k : Nat,
      es.foldl (mutantStep pm) (c, t, k)
        = (c + es.length, t + es.length,
           k + es.countP (fun e => exceptIsError (pm e))) := by
  induction es with
  | nil => intro c t k; simp
  | cons e rest ih =>
      intro c t k
      rw [List.foldl_cons, List.countP_cons]
      cases hpm : pm e with
      | error msg =>
          simp only [mutantStep, hpm, ih, List.length_cons, exceptIsError,
            if_pos]
          refine Prod.ext ?_ (Prod.ext ?_ ?_) <;> simp <;> omega
      | ok u =>
          simp only [mutantStep, hpm, ih, List.length_cons, exceptIsError,
            if_neg]
          refine Prod.ext ?_ (Prod.ext ?_ ?_) <;> simp <;> omega

/-! ## Claim C1 -/

/-- C1: when the baseline verification of the original program fails
with message `e`, `run_spec_test` returns a fatal error whose message
contains `e`, performs zero per-mutant prover calls, and never emits
the total/killed counters (its result is not an `ok` pair). -/
theorem baseline_failure_is_fatal (e : String)
    (pm : MutationReport → Except String Unit) (report : Report) :
    (run_spec_test (.error e) pm report).mutantProverCalls = 0
    ∧ (run_spec_test (.error e) pm report).result
        = .error ("Original code verification failed! Prover failed with error: " ++ e)
    ∧ (∃ pre : String,
        "Original code verification failed! Prover failed with error: " ++ e
          = pre ++ e)
    ∧ ∀ t k : Nat, (run_spec_test (.error e) pm report).result ≠ .ok (t, k) := by
  refine ⟨rfl, rfl,
    ⟨"Original code verification failed! Prover failed with error: ", rfl⟩, ?_⟩
  intro t k h
  simp [run_spec_test] at h

/-! ## Claim C2 -/

/-- C2: with a passing baseline, the orchestrator invokes the prover
exactly once per mutant of the loaded report; every prover error is
absorbed into the killed count (the loop never aborts: the result is
always the `ok` summary), prover success leaves the mutant survived
(not counted), and the summary is (total = number of mutants,
killed = number of mutants whose prover run errored).  In particular a
report of 3 mutants with 2 prover failures and 1 success yields
total=3, killed=2. -/
theorem mutant_loop_classification
    (pm : MutationReport → Except String Unit) (report : Report) :
    (run_spec_test (.ok ()) pm report).mutantProverCalls
        = report.get_mutants.length
    ∧ (run_spec_test (.ok ()) pm report).result
        = .ok (report.get_mutants.length,
               report.get_mutants.countP (fun e => exceptIsError (pm e)))
    ∧ (run_spec_test (.ok ())
          (fun e => if e.file = "m2" then .ok () else .error "prover failed")
          { mutants := [MutationReport.new "m0" "orig",
                        MutationReport.new "m1" "orig",
                        MutationReport.new "m2" "orig"] }).result
        = .ok (3, 2) := by
  have h := mutantStep_foldl pm report.get_mutants 0 0 0
  refine ⟨?_, ?_, ?_⟩
  · simp only [run_spec_test, mutantLoop, h]
    simp
  · simp only [run_spec_test, mutantLoop, h]
    simp
  · rfl

/-! ## Splicing lemmas for materialization -/

theorem splice_take (t new : List Char) (s e : Nat) (hs : s ≤ e)
    (he : e ≤ t.length) :
    (t.take s ++ new ++ t.drop e).take s = t.take s := by
  have hsl : s ≤ t.length := le_trans hs he
  rw [List.append_assoc, List.take_append_eq_append_take]
  simp [List.take_take, List.length_take, Nat.min_eq_left hsl]

theorem splice_drop (t new : List Char) (s e : Nat) (hs : s ≤ e)
    (he : e ≤ t.length) :
    (t.take s ++ new ++ t.drop e).drop (s + new.length) = t.drop e := by
  have hsl : s ≤ t.length := le_trans hs he
  rw [List.drop_append_eq_append_drop]
  simp [List.length_append, List.length_take, Nat.min_eq_left hsl]

/-! ## Claim C3 -/

/-- C3: for a source file `f` and a mutant `m` owned by it (hash match,
with the spec's range invariant `start <= end <= length`),
materialization produces `text[0:start] ++ newValueText ++ text[end:]`,
and the text outside `[start, end)` is unchanged: the first `start`
characters of the output coincide with those of the input, and the
output from position `start + |newValueText|` on coincides with the
input from position `end` on. -/
theorem materialize_frame (f : SourceFile) (m : Mutant)
    (hown : m.owningFileHash = f.contentHash)
    (hrange : m.range.start ≤ m.range.end_)
    (hlen : m.range.end_ ≤ f.text.length) :
    materialize f.text m
        = f.text.take m.range.start ++ m.newValueText
            ++ f.text.drop m.range.end_
    ∧ (materialize f.text m).take m.range.start = f.text.take m.range.start
    ∧ (materialize f.text m).drop (m.range.start + m.newValueText.length)
        = f.text.drop m.range.end_ :=
  ⟨rfl, splice_take f.text m.newValueText m.range.start m.range.end_ hrange hlen,
   splice_drop f.text m.newValueText m.range.start m.range.end_ hrange hlen⟩

/-- Witness for C3: the `+` token of `ab+cd` at range [2,3) replaced by
`-`, yielding `ab-cd` with both sides of the splice untouched. -/
theorem materialize_frame_witness :
    materialize ("ab+cd".data)
      { owningFileHash := 7, range := { start := 2, end_ := 3 },
        operatorName := "binary_operator_replacement",
        oldValueText := "+".data, newValueText := "-".data }
      = "ab-cd".data
    ∧ (materialize ("ab+cd".data)
        { owningFileHash := 7, range := { start := 2, end_ := 3 },
          operatorName := "binary_operator_replacement",
          oldValueText := "+".data, newValueText := "-".data }).take 2
      = ("ab+cd".data).take 2
    ∧ (materialize ("ab+cd".data)
        { owningFileHash := 7, range := { start := 2, end_ := 3 },
          operatorName := "binary_operator_replacement",
          oldValueText := "+".data, newValueText := "-".data }).drop 3
      = ("ab+cd".data).drop 3 := by
  have h := materialize_frame
    { contentHash := 7, filename := "f.move", text := "ab+cd".data }
    { owningFileHash := 7, range := { start := 2, end_ := 3 },
      operatorName := "binary_operator_replacement",
      oldValueText := "+".data, newValueText := "-".data }
    rfl (by decide) (by decide)
  exact ⟨by decide, h.2.1, h.2.2⟩

/-! ## JSON round-trip lemmas -/

theorem mapOption_roundtrip (f : α → Option β) (g : β → α)
    (h : ∀ b, f (g b) = some b) :
    ∀ l : List β, mapOption f (l.map g) = some l := by
  intro l
  induction l with
  | nil => rfl
  | cons b rest ih => simp [mapOption, h, ih]

theorem range_json_roundtrip (r : Range) :
    Range.fromJson r.toJson = some r := by
  cases r
  rfl

theorem mutation_json_roundtrip (m : Mutation) :
    Mutation.fromJson m.toJson = some m := by
  cases m with
  | mk cp op ov nv =>
      simp [Mutation.toJson, Mutation.fromJson, Json.getField, lookupField,
        Json.asStr, range_json_roundtrip]

theorem mutation_report_json_roundtrip (e : MutationReport) :
    MutationReport.fromJson e.toJson = some e := by
  cases e with
  | mk f of ms d =>
      simp [MutationReport.toJson, MutationReport.fromJson, Json.getField,
        lookupField, Json.asStr, Json.asArr,
        mapOption_roundtrip Mutation.fromJson Mutation.toJson
          mutation_json_roundtrip]

/-! ## Claim C4 -/

/-- C4: serializing a `Report` to its structured JSON form and
reloading it reconstructs the report exactly — in particular every
entry's mutated file path and original file path and all mutation
metadata (changed place, operator name, old value, new value) are
unchanged. -/
theorem report_json_roundtrip (r : Report) :
    Report.fromJson r.toJson = some r := by
  cases r with
  | mk ms =>
      simp [Report.toJson, Report.fromJson, Json.getField, lookupField,
        Json.asArr,
        mapOption_roundtrip MutationReport.fromJson MutationReport.toJson
          mutation_report_json_roundtrip]

/-! ## Per-file write loop lemmas -/

theorem writeMaterialized_spec (dir stem : String) (source : List Char)
    (origPath : String) (diffFn : List Char → List Char → String)
    (mats : List MaterializedMutant) :
    ∀ i : Nat,
      writeMaterialized dir stem source origPath diffFn i mats
        = (i + mats.length,
           ((List.range' i mats.length).zip mats).map
             (fun p => FsOp.writeFile (mutantPath dir stem p.1)
               (String.mk p.2.mutated_source)),
           ((List.range' i mats.length).zip mats).map
             (fun p =>
               ((MutationReport.new (mutantPath dir stem p.1)
                   origPath).generate_diff diffFn source
                 p.2.mutated_source).add_modification p.2.mutation)) := by
  induction mats with
  | nil => intro i; simp [writeMaterialized]
  | cons mat rest ih =>
      intro i
      simp only [writeMaterialized, ih (i + 1), List.length_cons, List.range',
        List.zip_cons_cons, List.map_cons]
      refine Prod.ext ?_ (Prod.ext ?_ ?_) <;> simp <;> omega

theorem zip_range'_append (l1 l2 : List α) (i : Nat) :
    (List.range' i (l1 ++ l2).length).zip (l1 ++ l2)
      = (List.range' i l1.length).zip l1
        ++ (List.range' (i + l1.length) l2.length).zip l2 := by
  rw [List.length_append]
  have h := List.range'_append i l1.length l2.length 1
  simp only [one_mul] at h
  rw [Nat.add_comm l1.length l2.length, ← h]
  exact List.zip_append (by simp [List.length_range'])

theorem writeMutants_spec (dir stem : String) (source : List Char)
    (origPath : String) (diffFn : List Char → List Char → String)
    (ms : List Mutant) :
    ∀ i : Nat,
      writeMutants dir stem source origPath diffFn i ms
        = (((List.range' i (materializedOf source ms).length).zip
              (materializedOf source ms)).map
             (fun p => FsOp.writeFile (mutantPath dir stem p.1)
               (String.mk p.2.mutated_source)),
           ((List.range' i (materializedOf source ms).length).zip
              (materializedOf source ms)).map
             (fun p =>
               ((MutationReport.new (mutantPath dir stem p.1)
                   origPath).generate_diff diffFn source
                 p.2.mutated_source).add_modification p.2.mutation)) := by
  induction ms with
  | nil => intro i; simp [writeMutants, materializedOf]
  | cons m rest ih =>
      intro i
      have hmat : materializedOf source (m :: rest)
          = m.apply source ++ materializedOf source rest := by
        simp [materializedOf]
      simp only [writeMutants, writeMaterialized_spec, ih]
      rw [hmat, zip_range'_append]
      simp [List.map_append]

/-! ## Claim C8 -/

/-- C8: the per-file loop of `run_move_mutator` writes exactly one
mutated source file per materialized mutant — the write list is in
bijection with the materialization list — and the `k`-th materialized
mutant of the file (counting from 0, in loop order) is written to
`dir/stem_k.move`: the per-file index starts at 0 and increases by one
per materialized mutant. -/
theorem mutant_file_naming (dir stem : String) (source : List Char)
    (origPath : String) (diffFn : List Char → List Char → String)
    (ms : List Mutant) :
    (writeMutants dir stem source origPath diffFn 0 ms).1
      = ((List.range (materializedOf source ms).length).zip
          (materializedOf source ms)).map
          (fun p => FsOp.writeFile
            (dir ++ "/" ++ stem ++ "_" ++ toString p.1 ++ ".move")
            (String.mk p.2.mutated_source))
    ∧ (writeMutants dir stem source origPath diffFn 0 ms).1.length
        = (materializedOf source ms).length := by
  have h := writeMutants_spec dir stem source origPath diffFn ms 0
  constructor
  · rw [h, List.range_eq_range']
    rfl
  · rw [h]
    simp [List.length_zip, List.length_range']

/-! ## File filtering lemmas -/

theorem writeMutants_original_file (dir stem : String) (source : List Char)
    (origPath : String) (diffFn : List Char → List Char → String)
    (ms : List Mutant) (i : Nat) :
    ∀ entry ∈ (writeMutants dir stem source origPath diffFn i ms).2,
      entry.original_file = origPath := by
  intro entry h
  rw [writeMutants_spec] at h
  simp only [List.mem_map] at h
  obtain ⟨p, _, hp⟩ := h
  rw [← hp]
  rfl

theorem processFile_entries (conf : ProjectOptions) (mutants : List Mutant)
    (dir : String) (fileStem : String → String)
    (diffFn : List Char → List Char → String)
    (hash : Nat) (filename : String) (source : List Char) :
    ∀ entry ∈
        (processFile conf mutants dir fileStem diffFn hash filename source).2,
      entry.original_file = filename
      ∧ (∀ ex, conf.exclude_files = some ex → filename ∉ ex)
      ∧ (∀ inc, conf.include_only_files = some inc → filename ∈ inc) := by
  intro entry h
  unfold processFile at h
  split at h
  case isTrue => simp at h
  case isFalse hex =>
    split at h
    case isTrue => simp at h
    case isFalse hinc =>
      refine ⟨writeMutants_original_file _ _ _ _ _ _ _ entry h, ?_, ?_⟩
      · intro ex hexeq hmem
        rw [hexeq] at hex
        exact hex (by simpa using hmem)
      · intro inc hinceq
        rw [hinceq] at hinc
        simp only [Bool.not_eq_true, Bool.not_eq_false] at hinc
        simpa using hinc

theorem processFiles_entries (conf : ProjectOptions) (mutants : List Mutant)
    (dir : String) (fileStem : String → String)
    (diffFn : List Char → List Char → String) :
    ∀ files : List (Nat × String × List Char),
    ∀ entry ∈ (processFiles conf mutants dir fileStem diffFn files).2,
      (∀ inc, conf.include_only_files = some inc →
        entry.original_file ∈ inc)
      ∧ (∀ ex, conf.exclude_files = some ex → entry.original_file ∉ ex) := by
  intro files
  induction files with
  | nil => intro entry h; simp [processFiles] at h
  | cons f rest ih =>
      intro entry h
      obtain ⟨hash, filename, source⟩ := f
      simp only [processFiles] at h
      rw [List.mem_append] at h
      rcases h with h | h
      · obtain ⟨horig, hex, hinc⟩ :=
          processFile_entries conf mutants dir fileStem diffFn hash filename
            source entry h
        rw [horig]
        exact ⟨hinc, hex⟩
      · exact ih entry h

theorem processFile_ops_writes (conf : ProjectOptions) (mutants : List Mutant)
    (dir : String) (fileStem : String → String)
    (diffFn : List Char → List Char → String)
    (hash : Nat) (filename : String) (source : List Char) :
    ∀ op ∈ (processFile conf mutants dir fileStem diffFn hash filename source).1,
      op.isWrite = true := by
  intro op h
  unfold processFile at h
  split at h
  case isTrue => simp at h
  case isFalse =>
    split at h
    case isTrue => simp at h
    case isFalse =>
      rw [writeMutants_spec] at h
      simp only [List.mem_map] at h
      obtain ⟨p, _, hp⟩ := h
      rw [← hp]
      rfl

theorem processFiles_ops_writes (conf : ProjectOptions) (mutants : List Mutant)
    (dir : String) (fileStem : String → String)
    (diffFn : List Char → List Char → String) :
    ∀ files : List (Nat × String × List Char),
    ∀ op ∈ (processFiles conf mutants dir fileStem diffFn files).1,
      op.isWrite = true := by
  intro files
  induction files with
  | nil => intro op h; simp [processFiles] at h
  | cons f rest ih =>
      intro op h
      obtain ⟨hash, filename, source⟩ := f
      simp only [processFiles] at h
      rw [List.mem_append] at h
      rcases h with h | h
      · exact processFile_ops_writes conf mutants dir fileStem diffFn hash
          filename source op h
      · exact ih op h

/-! ## Claim C5 -/

/-- C5: in a successful mutator run, every report entry (one per
materialized mutant) belongs to a file listed in `include_only_files`
whenever that list is present, and never to a file listed in
`exclude_files` — exclusion wins even for a file that is also
include-listed. -/
theorem include_exclude_precedence (conf : ProjectOptions)
    (files : List (Nat × String × List Char)) (mutants : List Mutant)
    (dirExists : String → Bool) (fileStem : String → String)
    (diffFn : List Char → List Char → String) (ops : List FsOp) (rpt : Report)
    (h : run_move_mutator conf files mutants dirExists fileStem diffFn
          = .ok (ops, rpt)) :
    ∀ entry ∈ rpt.mutants,
      (∀ inc, conf.include_only_files = some inc →
        entry.original_file ∈ inc)
      ∧ (∀ ex, conf.exclude_files = some ex → entry.original_file ∉ ex) := by
  intro entry hmem
  unfold run_move_mutator at h
  cases hsetup : setup_output_dir conf dirExists with
  | error e => rw [hsetup] at h; cases h
  | ok dirOps =>
      rw [hsetup] at h
      simp only [Except.ok.injEq, Prod.mk.injEq] at h
      obtain ⟨-, hrpt⟩ := h
      rw [← hrpt, report_foldl_add_entry] at hmem
      simp only [Report.new, List.nil_append] at hmem
      exact processFiles_entries conf mutants dirOps.1 fileStem diffFn files
        entry hmem

/-- Witness for C5: the sample run materializes only file A's mutant;
its entry is include-listed and not exclude-listed, although file B is
in both lists. -/
theorem include_exclude_precedence_witness :
    run_move_mutator sampleConf sampleFiles sampleMutants (fun _ => false)
        (fun s => s) (fun _ _ => "") = .ok (sampleOps, sampleReport)
    ∧ ∀ entry ∈ sampleReport.mutants,
        (∀ inc, sampleConf.include_only_files = some inc →
          entry.original_file ∈ inc)
        ∧ (∀ ex, sampleConf.exclude_files = some ex →
            entry.original_file ∉ ex) := by
  have h : run_move_mutator sampleConf sampleFiles sampleMutants
      (fun _ => false) (fun s => s) (fun _ _ => "")
      = .ok (sampleOps, sampleReport) := by rfl
  exact ⟨h, include_exclude_precedence sampleConf sampleFiles sampleMutants
    (fun _ => false) (fun s => s) (fun _ _ => "") sampleOps sampleReport h⟩

/-! ## Claim C6 -/

/-- C6: when the resolved output directory exists and the no-overwrite
policy is enabled, `run_move_mutator` aborts with the error (the error
return carries no filesystem operations: nothing is written and the
directory is not cleared); in every successful run the trace starts by
removing and recreating the output directory, and everything after
those two operations is a file write — so the directory is recreated
fresh before any mutant file is written. -/
theorem output_dir_overwrite_policy (conf : ProjectOptions)
    (files : List (Nat × String × List Char)) (mutants : List Mutant)
    (dirExists : String → Bool) (fileStem : String → String)
    (diffFn : List Char → List Char → String) :
    (dirExists (conf.output_dir.getD DEFAULT_OUTPUT_DIR) = true →
      conf.no_overwrite = some true →
      run_move_mutator conf files mutants dirExists fileStem diffFn
        = .error
          "Output directory already exists. Use --no-overwrite=false to overwrite.")
    ∧ (∀ ops rpt,
        run_move_mutator conf files mutants dirExists fileStem diffFn
          = .ok (ops, rpt) →
        ∃ rest,
          ops = FsOp.removeDirAll (conf.output_dir.getD DEFAULT_OUTPUT_DIR)
                :: FsOp.createDir (conf.output_dir.getD DEFAULT_OUTPUT_DIR)
                :: rest
          ∧ ∀ op ∈ rest, op.isWrite = true) := by
  constructor
  · intro hex hnw
    simp [run_move_mutator, setup_output_dir, hex, hnw]
  · intro ops rpt h
    unfold run_move_mutator at h
    cases hsetup : setup_output_dir conf dirExists with
    | error e => rw [hsetup] at h; cases h
    | ok dirOps =>
        have hdir : dirOps
            = (conf.output_dir.getD DEFAULT_OUTPUT_DIR,
               [FsOp.removeDirAll (conf.output_dir.getD DEFAULT_OUTPUT_DIR),
                FsOp.createDir (conf.output_dir.getD DEFAULT_OUTPUT_DIR)]) := by
          simp only [setup_output_dir] at hsetup
          split at hsetup
          · cases hsetup
          · rw [Except.ok.injEq] at hsetup
            exact hsetup.symm
        rw [hsetup] at h
        simp only [Except.ok.injEq, Prod.mk.injEq] at h
        obtain ⟨hops, -⟩ := h
        refine ⟨(processFiles conf mutants dirOps.1 fileStem diffFn files).1
          ++ [FsOp.writeJson (dirOps.1 ++ "/report.json")
                (List.foldl Report.add_entry Report.new
                  (processFiles conf mutants dirOps.1 fileStem diffFn
                    files).2).toJson,
              FsOp.writeFile (dirOps.1 ++ "/report.txt")
                (List.foldl Report.add_entry Report.new
                  (processFiles conf mutants dirOps.1 fileStem diffFn
                    files).2).save_to_text_file], ?_, ?_⟩
        · rw [← hops, hdir]
          simp
        · intro op hop
          rw [List.mem_append] at hop
          rcases hop with hop | hop
          · exact processFiles_ops_writes conf mutants dirOps.1 fileStem diffFn
              files op hop
          · simp only [List.mem_cons, List.mem_singleton] at hop
            rcases hop with hop | hop | hop
            · rw [hop]; rfl
            · rw [hop]; rfl
            · cases hop

/-- Witness for C6: a pre-existing directory under `no_overwrite=true`
aborts with the exact error; the sample run's trace starts with the
removal and recreation of `out` followed only by writes. -/
theorem output_dir_overwrite_policy_witness :
    run_move_mutator
        { output_dir := some "out", no_overwrite := some true,
          exclude_files := none, include_only_files := none }
        [] [] (fun _ => true) (fun s => s) (fun _ _ => "")
      = .error
        "Output directory already exists. Use --no-overwrite=false to overwrite."
    ∧ ∃ rest,
        sampleOps = FsOp.removeDirAll "out" :: FsOp.createDir "out" :: rest
        ∧ ∀ op ∈ rest, op.isWrite = true := by
  constructor
  · exact (output_dir_overwrite_policy
      { output_dir := some "out", no_overwrite := some true,
        exclude_files := none, include_only_files := none }
      [] [] (fun _ => true) (fun s => s) (fun _ _ => "")).1 rfl rfl
  · exact (output_dir_overwrite_policy sampleConf sampleFiles sampleMutants
      (fun _ => false) (fun s => s) (fun _ _ => "")).2 sampleOps sampleReport
      (by rfl)

end MoveSpecTesting
